import Mathlib

/-!
# Verification of the translate-dir prototype library

A shallow embedding, in Lean, of the data model and operations of the
`prototype-translate-dir-lib` Rust crate: the recursive `Directory`/`File` tree
model, the scanner (`build_tree`), the merge engine
(`compare_and_submit_dir_structs`), the pruner
(`remove_files_not_in_source_dir`), the distributor
(`copy_untranslatable_files`), the chunking helper (`divide_into_chunks`),
and the project-level lifecycle operations (`set_source_dir`, `add_lang`,
`remove_lang`, `sync_files`, `make_translatable_file`, `translate_all`).

The real filesystem is modelled by a tree of `DiskEntry` values (directories,
regular files with string contents, symbolic links, and unreadable directories,
the last modelling a directory on which `read_dir` fails with an I/O error).
`PathBuf` is modelled as a list of path components.  Stateful operations take
and return an explicit `ProjState`; fallible code returns `Except`, and the
places where the Rust code can `panic!` or `unwrap()` a `None` are modelled by
the `PanicOr` wrapper.  The external translation service is an opaque function
parameter.  Theorems at the end settle the specification claims.
-/

namespace TransDir

/-- Rust `PathBuf` modelled as a list of path components (all paths are canonical
and absolute in the crate, so component lists are a faithful model). -/
abbrev Path := List String

/-- Rust `PathBuf::file_name()` converted with `into_string().unwrap_or(String::new())`,
exactly as `Directory::new` computes the directory name from its path. -/
def fileNameOf (p : Path) : String := (p.getLast?).getD ""

/-- Rust `path.strip_prefix(base)`: drop `base` from the front of `p`, or fail. -/
def pathRel (base p : Path) : Option Path :=
  if base.isPrefixOf p then some (p.drop base.length) else none

/-- Strings contribute nothing to the size measure used for termination: this
keeps the well-founded recursion over the tree types cheap to evaluate. -/
instance : SizeOf String := ⟨fun _ => 0⟩

/-- The `Language` enum from `lib.rs`. -/
inductive Language where
  | French
  | English
  | German
  | Spanish
  | Ukrainian
deriving DecidableEq

/-- Rust `Language::get_dir_suffix` from `lib.rs`. -/
def Language.get_dir_suffix : Language → String
  | .French => "_fr"
  | .English => "_en"
  | .German => "_de"
  | .Spanish => "_sp"
  | .Ukrainian => "_ua"

/-- The `File` config struct: name, path, translatable flag. -/
structure File where
  name : String
  path : Path
  translatable : Bool
deriving DecidableEq

/-- The `Directory` config struct: name, path, child directories, child files. -/
inductive Directory where
  | mk (name : String) (path : Path) (dirs : List Directory) (files : List File)

/-- Field accessor: `Directory::name` (also `get_dir_name`). -/
def Directory.name : Directory → String
  | .mk n _ _ _ => n

/-- Field accessor: `Directory::path` (also `get_path`). -/
def Directory.path : Directory → Path
  | .mk _ p _ _ => p

/-- Field accessor: `Directory::dirs` (also `get_dirs_as_ref`). -/
def Directory.dirs : Directory → List Directory
  | .mk _ _ ds _ => ds

/-- Field accessor: `Directory::files` (also `get_files_as_ref`). -/
def Directory.files : Directory → List File
  | .mk _ _ _ fs => fs

@[simp] theorem Directory.name_mk (n : String) (p : Path) (ds : List Directory)
    (fs : List File) : (Directory.mk n p ds fs).name = n := rfl

@[simp] theorem Directory.path_mk (n : String) (p : Path) (ds : List Directory)
    (fs : List File) : (Directory.mk n p ds fs).path = p := rfl

@[simp] theorem Directory.dirs_mk (n : String) (p : Path) (ds : List Directory)
    (fs : List File) : (Directory.mk n p ds fs).dirs = ds := rfl

@[simp] theorem Directory.files_mk (n : String) (p : Path) (ds : List Directory)
    (fs : List File) : (Directory.mk n p ds fs).files = fs := rfl

theorem Directory.sizeOf_dirs_lt (n : String) (p : Path) (ds : List Directory)
    (fs : List File) : sizeOf ds < sizeOf (Directory.mk n p ds fs) := by
  simp only [Directory.mk.sizeOf_spec]
  omega

/-- Structural induction principle for the nested inductive `Directory`. -/
theorem Directory.inductionOn (P : Directory → Prop)
    (h : ∀ n p ds fs, (∀ d ∈ ds, P d) → P (.mk n p ds fs)) : ∀ d, P d := by
  have key : ∀ (k : Nat) (d : Directory), sizeOf d ≤ k → P d := by
    intro k
    induction k with
    | zero =>
      intro d hd
      cases d with
      | mk n p ds fs => simp only [Directory.mk.sizeOf_spec] at hd; omega
    | succ k ih =>
      intro d hd
      cases d with
      | mk n p ds fs =>
        apply h
        intro c hc
        apply ih
        have h1 := List.sizeOf_lt_of_mem hc
        simp only [Directory.mk.sizeOf_spec] at hd
        omega
  intro d
  exact key (sizeOf d) d le_rfl

/-- Models building a `HashMap<PathBuf, &File>` with `collect()` and then calling
`get(p)`: with duplicate keys the later insertion overwrites the earlier one. -/
def hashGetFile (fs : List File) (p : Path) : Option File :=
  fs.foldl (fun acc f => if f.path = p then some f else acc) none

/-- Models building a `HashMap<PathBuf, &Directory>` with `collect()` and then
calling `get(p)`: with duplicate keys the later insertion wins. -/
def hashGetDir (ds : List Directory) (p : Path) : Option Directory :=
  ds.foldl (fun acc d => if d.path = p then some d else acc) none

/-- The merge engine, `compare_and_submit_dir_structs` from
`src/project_config/mod.rs` (lines 367-406): files and subdirectories of the
new scan are kept in order; a file whose path also occurs in the old structure
keeps the old record, a subdirectory whose path also occurs in the old
structure is merged recursively; the result root is `Directory::new(new.path)`. -/
def compare_and_submit_dir_structs : Directory → Directory → Directory
  | old_dir, .mk _ p ds fs =>
    Directory.mk (fileNameOf p) p
      (ds.attach.map (fun x =>
        match hashGetDir old_dir.dirs x.1.path with
        | some old_sub => compare_and_submit_dir_structs old_sub x.1
        | none => x.1))
      (fs.map (fun f =>
        match hashGetFile old_dir.files f.path with
        | some old_f => old_f
        | none => f))
termination_by _ d => sizeOf d
decreasing_by
  have := List.sizeOf_lt_of_mem x.2
  simp only [Directory.mk.sizeOf_spec]
  omega

theorem attach_map_eq {α : Type _} {β : Type _} (l : List α) (F : α → β) :
    l.attach.map (fun x => F x.1) = l.map F :=
  List.attach_map_val l F

/-- Unfolding equation for the merge engine, with the `attach` bookkeeping
eliminated. -/
theorem compare_and_submit_def (old newd : Directory) :
    compare_and_submit_dir_structs old newd =
      Directory.mk (fileNameOf newd.path) newd.path
        (newd.dirs.map (fun d =>
          match hashGetDir old.dirs d.path with
          | some old_sub => compare_and_submit_dir_structs old_sub d
          | none => d))
        (newd.files.map (fun f =>
          match hashGetFile old.files f.path with
          | some old_f => old_f
          | none => f)) := by
  cases newd with
  | mk n p ds fs =>
    rw [compare_and_submit_dir_structs]
    simp only [Directory.path, Directory.dirs, Directory.files]
    congr 1
    exact attach_map_eq ds (fun d =>
      match hashGetDir old.dirs d.path with
      | some old_sub => compare_and_submit_dir_structs old_sub d
      | none => d)

/-- All `(path, translatable)` pairs of files anywhere in the tree, in
traversal order: the node's own files first, then the subdirectories
recursively. -/
def fileEntriesRec : Directory → List (Path × Bool)
  | .mk _ _ ds fs =>
    fs.map (fun f => (f.path, f.translatable)) ++
      (ds.attach.map (fun x => fileEntriesRec x.1)).flatten
termination_by d => sizeOf d
decreasing_by
  have := List.sizeOf_lt_of_mem x.2
  simp only [Directory.mk.sizeOf_spec]
  omega

/-- The paths of all files anywhere in the tree, in traversal order. -/
def filePathsRec : Directory → List Path
  | .mk _ _ ds fs =>
    fs.map File.path ++ (ds.attach.map (fun x => filePathsRec x.1)).flatten
termination_by d => sizeOf d
decreasing_by
  have := List.sizeOf_lt_of_mem x.2
  simp only [Directory.mk.sizeOf_spec]
  omega

/-- The paths of the tree's root and of all directories below it. -/
def dirPathsRec : Directory → List Path
  | .mk _ p ds _ =>
    p :: (ds.attach.map (fun x => dirPathsRec x.1)).flatten
termination_by d => sizeOf d
decreasing_by
  have := List.sizeOf_lt_of_mem x.2
  simp only [Directory.mk.sizeOf_spec]
  omega

/-- Well-formedness of a directory model: at every level the file paths are
pairwise distinct and the subdirectory paths are pairwise distinct.  The spec's
data model makes the absolute path the identity of a file, and trees produced
by the scanner always satisfy this. -/
def wfDirB : Directory → Bool
  | .mk _ _ ds fs =>
    decide ((fs.map File.path).Nodup) && decide ((ds.map Directory.path).Nodup) &&
      (ds.attach.map (fun x => wfDirB x.1)).all (fun b => b)
termination_by d => sizeOf d
decreasing_by
  have := List.sizeOf_lt_of_mem x.2
  simp only [Directory.mk.sizeOf_spec]
  omega

theorem fileEntriesRec_def (n : String) (p : Path) (ds : List Directory)
    (fs : List File) :
    fileEntriesRec (.mk n p ds fs) =
      fs.map (fun f => (f.path, f.translatable)) ++ (ds.map fileEntriesRec).flatten := by
  rw [fileEntriesRec]
  rw [attach_map_eq ds fileEntriesRec]

theorem filePathsRec_def (n : String) (p : Path) (ds : List Directory)
    (fs : List File) :
    filePathsRec (.mk n p ds fs) =
      fs.map File.path ++ (ds.map filePathsRec).flatten := by
  rw [filePathsRec]
  rw [attach_map_eq ds filePathsRec]

theorem dirPathsRec_def (n : String) (p : Path) (ds : List Directory)
    (fs : List File) :
    dirPathsRec (.mk n p ds fs) = p :: (ds.map dirPathsRec).flatten := by
  rw [dirPathsRec]
  rw [attach_map_eq ds dirPathsRec]

theorem wfDirB_def (n : String) (p : Path) (ds : List Directory) (fs : List File) :
    wfDirB (.mk n p ds fs) =
      (decide ((fs.map File.path).Nodup) && decide ((ds.map Directory.path).Nodup) &&
        (ds.map wfDirB).all (fun b => b)) := by
  rw [wfDirB]
  rw [attach_map_eq ds wfDirB]

theorem wfDirB_child {n : String} {p : Path} {ds : List Directory} {fs : List File}
    (h : wfDirB (.mk n p ds fs) = true) :
    (fs.map File.path).Nodup ∧ (ds.map Directory.path).Nodup ∧
      ∀ d ∈ ds, wfDirB d = true := by
  rw [wfDirB_def] at h
  simp only [Bool.and_eq_true, decide_eq_true_eq, List.all_eq_true] at h
  refine ⟨h.1.1, h.1.2, ?_⟩
  intro d hd
  exact h.2 (wfDirB d) (List.mem_map_of_mem wfDirB hd)

/-- Generic model of collecting key-value pairs into a `HashMap` and looking a
key up: iterating a list, a later entry with the same key overwrites an
earlier one. -/
def hashGet {α : Type _} (key : α → Path) (l : List α) (p : Path) : Option α :=
  l.foldl (fun acc a => if key a = p then some a else acc) none

theorem hashGet_append {α : Type _} (key : α → Path) (l : List α) (x : α) (p : Path) :
    hashGet key (l ++ [x]) p = if key x = p then some x else hashGet key l p := by
  simp [hashGet, List.foldl_append]

theorem hashGet_eq_none {α : Type _} (key : α → Path) (l : List α) (p : Path) :
    hashGet key l p = none ↔ p ∉ l.map key := by
  induction l using List.reverseRecOn with
  | nil => simp [hashGet]
  | append_singleton l x ih =>
    rw [hashGet_append, List.map_append]
    by_cases h : key x = p
    · rw [if_pos h]
      constructor
      · intro hc
        exact (Option.some_ne_none x hc).elim
      · intro hc
        exact (hc (List.mem_append_right _ (by simp [h]))).elim
    · rw [if_neg h, ih]
      constructor
      · intro h1 hc
        rcases List.mem_append.mp hc with hc1 | hc2
        · exact h1 hc1
        · simp only [List.map_cons, List.map_nil, List.mem_singleton] at hc2
          exact h hc2.symm
      · intro h1 hc
        exact h1 (List.mem_append_left _ hc)

theorem hashGet_mem {α : Type _} (key : α → Path) (l : List α) (p : Path) (a : α)
    (h : hashGet key l p = some a) : a ∈ l ∧ key a = p := by
  induction l using List.reverseRecOn with
  | nil => simp [hashGet] at h
  | append_singleton l x ih =>
    rw [hashGet_append] at h
    by_cases hx : key x = p
    · rw [if_pos hx] at h
      have hxa : x = a := by injection h
      subst hxa
      exact ⟨List.mem_append_right l (by simp), hx⟩
    · rw [if_neg hx] at h
      have h2 := ih h
      exact ⟨List.mem_append_left _ h2.1, h2.2⟩

theorem hashGet_self {α : Type _} (key : α → Path) (l : List α)
    (h : (l.map key).Nodup) (a : α) (ha : a ∈ l) : hashGet key l (key a) = some a := by
  induction l using List.reverseRecOn with
  | nil => cases ha
  | append_singleton l x ih =>
    rw [hashGet_append]
    rw [List.map_append, List.nodup_append] at h
    rcases List.mem_append.mp ha with h1 | h2
    · have hx : key x ≠ key a := by
        intro he
        have hmem : key a ∈ l.map key := List.mem_map_of_mem key h1
        have hdis := h.2.2 hmem
        simp [he] at hdis
      rw [if_neg hx]
      exact ih h.1 h1
    · have hax : a = x := by simpa using h2
      subst hax
      simp

theorem hashGetFile_eq (fs : List File) (p : Path) :
    hashGetFile fs p = hashGet File.path fs p := rfl

theorem hashGetDir_eq (ds : List Directory) (p : Path) :
    hashGetDir ds p = hashGet Directory.path ds p := rfl

theorem merge_files (old newd : Directory) :
    (compare_and_submit_dir_structs old newd).files =
      newd.files.map (fun f =>
        match hashGetFile old.files f.path with
        | some old_f => old_f
        | none => f) := by
  rw [compare_and_submit_def]
  rfl

theorem merge_dirs (old newd : Directory) :
    (compare_and_submit_dir_structs old newd).dirs =
      newd.dirs.map (fun d =>
        match hashGetDir old.dirs d.path with
        | some old_sub => compare_and_submit_dir_structs old_sub d
        | none => d) := by
  rw [compare_and_submit_def]
  rfl

theorem merge_path (old newd : Directory) :
    (compare_and_submit_dir_structs old newd).path = newd.path := by
  rw [compare_and_submit_def]
  rfl

/-- Each file record kept by the merge keeps the path of the new file it
replaces, so the per-level file path list is exactly that of the new scan. -/
theorem merge_files_paths (old newd : Directory) :
    (compare_and_submit_dir_structs old newd).files.map File.path =
      newd.files.map File.path := by
  rw [merge_files, List.map_map]
  apply List.map_congr_left
  intro f _
  simp only [Function.comp_apply]
  cases hg : hashGetFile old.files f.path with
  | none => rfl
  | some o =>
    rw [hashGetFile_eq] at hg
    exact (hashGet_mem File.path old.files f.path o hg).2

/-- The per-level subdirectory path list of the merge is exactly that of the
new scan. -/
theorem merge_dirs_paths (old newd : Directory) :
    (compare_and_submit_dir_structs old newd).dirs.map Directory.path =
      newd.dirs.map Directory.path := by
  rw [merge_dirs, List.map_map]
  apply List.map_congr_left
  intro d _
  simp only [Function.comp_apply]
  cases hg : hashGetDir old.dirs d.path with
  | none => rfl
  | some od => exact merge_path od d

/-- The recursive file path list of the merge is exactly that of the new scan. -/
theorem merge_filePathsRec (newd : Directory) : ∀ old : Directory,
    filePathsRec (compare_and_submit_dir_structs old newd) = filePathsRec newd := by
  induction newd using Directory.inductionOn with
  | h n p ds fs ih =>
    intro old
    rw [compare_and_submit_def]
    simp only [Directory.path_mk, Directory.dirs_mk, Directory.files_mk]
    rw [filePathsRec_def, filePathsRec_def, List.map_map]
    congr 1
    · -- file paths at this level
      apply List.map_congr_left
      intro f _
      simp only [Function.comp_apply]
      cases hg : hashGetFile old.files f.path with
      | none => rfl
      | some o =>
        rw [hashGetFile_eq] at hg
        exact (hashGet_mem File.path old.files f.path o hg).2
    · -- recursive part
      congr 1
      rw [List.map_map]
      apply List.map_congr_left
      intro d hd
      simp only [Function.comp_apply]
      cases hg : hashGetDir old.dirs d.path with
      | none => rfl
      | some od => exact ih d hd od

/-- C1: `compare_and_submit_dir_structs old new` contains exactly the file
paths present in `new` (recursively); a file whose path is present in both
`old` and `new` keeps the old `File` record, preserving its translatable flag
(stated with the old sibling paths distinct, which is how a path identifies
one old record); a file present only in `new` is adopted as-is; a file present
only in `old` does not appear in the result; a subdirectory present in both is
merged recursively, one present only in `new` is adopted verbatim, and one
present only in `old` is dropped. -/
theorem merge_exactly_new_preserving_old_flags (old newd : Directory) :
    filePathsRec (compare_and_submit_dir_structs old newd) = filePathsRec newd
    ∧ (∀ f ∈ newd.files, f.path ∉ old.files.map File.path →
        f ∈ (compare_and_submit_dir_structs old newd).files)
    ∧ ((old.files.map File.path).Nodup → ∀ f ∈ old.files,
        f.path ∈ newd.files.map File.path →
        f ∈ (compare_and_submit_dir_structs old newd).files)
    ∧ (∀ f ∈ old.files, f.path ∉ newd.files.map File.path →
        f.path ∉ (compare_and_submit_dir_structs old newd).files.map File.path)
    ∧ (∀ d ∈ newd.dirs, d.path ∉ old.dirs.map Directory.path →
        d ∈ (compare_and_submit_dir_structs old newd).dirs)
    ∧ (∀ d ∈ newd.dirs, ∀ od, hashGetDir old.dirs d.path = some od →
        compare_and_submit_dir_structs od d ∈
          (compare_and_submit_dir_structs old newd).dirs)
    ∧ (∀ od ∈ old.dirs, od.path ∉ newd.dirs.map Directory.path →
        od.path ∉ (compare_and_submit_dir_structs old newd).dirs.map Directory.path) := by
  refine ⟨merge_filePathsRec newd old, ?_, ?_, ?_, ?_, ?_, ?_⟩
  · intro f hf hnot
    rw [merge_files]
    have hnone : hashGetFile old.files f.path = none := by
      rw [hashGetFile_eq, hashGet_eq_none]
      exact hnot
    refine List.mem_map.mpr ⟨f, hf, ?_⟩
    rw [hnone]
  · intro hnd f hf hin
    rw [merge_files]
    rcases List.mem_map.mp hin with ⟨g, hg, hgp⟩
    have hsome : hashGetFile old.files g.path = some f := by
      rw [hashGetFile_eq, hgp]
      exact hashGet_self File.path old.files hnd f hf
    refine List.mem_map.mpr ⟨g, hg, ?_⟩
    rw [hsome]
  · intro f _ hnot
    rw [merge_files_paths]
    exact hnot
  · intro d hd hnot
    rw [merge_dirs]
    have hnone : hashGetDir old.dirs d.path = none := by
      rw [hashGetDir_eq, hashGet_eq_none]
      exact hnot
    refine List.mem_map.mpr ⟨d, hd, ?_⟩
    rw [hnone]
  · intro d hd od hod
    rw [merge_dirs]
    refine List.mem_map.mpr ⟨d, hd, ?_⟩
    rw [hod]
  · intro od _ hnot
    rw [merge_dirs_paths]
    exact hnot

theorem merge_exactly_new_preserving_old_flags_witness :
    ((⟨"b", ["s","b"], true⟩ : File) ∈
      (compare_and_submit_dir_structs
        (.mk "s" ["s"] [] [⟨"a", ["s","a"], false⟩, ⟨"b", ["s","b"], true⟩])
        (.mk "s" ["s"] [] [⟨"b", ["s","b"], false⟩, ⟨"c", ["s","c"], false⟩])).files)
    ∧ ((⟨"c", ["s","c"], false⟩ : File) ∈
      (compare_and_submit_dir_structs
        (.mk "s" ["s"] [] [⟨"a", ["s","a"], false⟩, ⟨"b", ["s","b"], true⟩])
        (.mk "s" ["s"] [] [⟨"b", ["s","b"], false⟩, ⟨"c", ["s","c"], false⟩])).files)
    ∧ (["s","a"] ∉
      (compare_and_submit_dir_structs
        (.mk "s" ["s"] [] [⟨"a", ["s","a"], false⟩, ⟨"b", ["s","b"], true⟩])
        (.mk "s" ["s"] [] [⟨"b", ["s","b"], false⟩, ⟨"c", ["s","c"], false⟩])).files.map
          File.path) := by
  have h := merge_exactly_new_preserving_old_flags
    (.mk "s" ["s"] [] [⟨"a", ["s","a"], false⟩, ⟨"b", ["s","b"], true⟩])
    (.mk "s" ["s"] [] [⟨"b", ["s","b"], false⟩, ⟨"c", ["s","c"], false⟩])
  exact ⟨h.2.2.1 (by decide) ⟨"b", ["s","b"], true⟩ (by decide) (by decide),
         h.2.1 ⟨"c", ["s","c"], false⟩ (by decide) (by decide),
         h.2.2.2.1 ⟨"a", ["s","a"], false⟩ (by decide) (by decide)⟩

/-- C5: on well-formed models (sibling file paths distinct and sibling
directory paths distinct at every level, which is what the data model's
"path is the identity" and the scanner guarantee), the merge is idempotent:
`merge(D, D)` has exactly the `(path, flag)` file entries of `D` and exactly
the directory paths of `D` (here even as equal lists, which implies the
order-independent set equality of the claim). -/
theorem merge_idempotent (D : Directory) (h : wfDirB D = true) :
    fileEntriesRec (compare_and_submit_dir_structs D D) = fileEntriesRec D
    ∧ dirPathsRec (compare_and_submit_dir_structs D D) = dirPathsRec D := by
  induction D using Directory.inductionOn with
  | h n p ds fs ih =>
    obtain ⟨hnf, hnd, hch⟩ := wfDirB_child h
    have hfiles : fs.map (fun f =>
        match hashGetFile fs f.path with
        | some old_f => old_f
        | none => f) = fs := by
      have h2 : fs.map (fun f =>
          match hashGetFile fs f.path with
          | some old_f => old_f
          | none => f) = fs.map id := by
        apply List.map_congr_left
        intro f hf
        have hs : hashGetFile fs f.path = some f := by
          rw [hashGetFile_eq]
          exact hashGet_self File.path fs hnf f hf
        rw [hs]
        rfl
      rw [h2, List.map_id]
    have hdirs : ds.map (fun d =>
        match hashGetDir ds d.path with
        | some old_sub => compare_and_submit_dir_structs old_sub d
        | none => d) = ds.map (fun d => compare_and_submit_dir_structs d d) := by
      apply List.map_congr_left
      intro d hd
      have hs : hashGetDir ds d.path = some d := by
        rw [hashGetDir_eq]
        exact hashGet_self Directory.path ds hnd d hd
      rw [hs]
    constructor
    · rw [compare_and_submit_def]
      simp only [Directory.path_mk, Directory.dirs_mk, Directory.files_mk]
      rw [fileEntriesRec_def, fileEntriesRec_def, hfiles, hdirs]
      congr 1
      congr 1
      rw [List.map_map]
      apply List.map_congr_left
      intro d hd
      exact (ih d hd (hch d hd)).1
    · rw [compare_and_submit_def]
      simp only [Directory.path_mk, Directory.dirs_mk, Directory.files_mk]
      rw [dirPathsRec_def, dirPathsRec_def, hdirs]
      congr 1
      congr 1
      rw [List.map_map]
      apply List.map_congr_left
      intro d hd
      exact (ih d hd (hch d hd)).2

set_option maxRecDepth 10000 in
unseal wfDirB in
theorem merge_idempotent_witness :
    wfDirB (Directory.mk "s" ["s"]
        [Directory.mk "d" ["s","d"] [] [⟨"x", ["s","d","x"], true⟩]]
        [⟨"f", ["s","f"], false⟩]) = true
    ∧ (fileEntriesRec (compare_and_submit_dir_structs
          (Directory.mk "s" ["s"]
            [Directory.mk "d" ["s","d"] [] [⟨"x", ["s","d","x"], true⟩]]
            [⟨"f", ["s","f"], false⟩])
          (Directory.mk "s" ["s"]
            [Directory.mk "d" ["s","d"] [] [⟨"x", ["s","d","x"], true⟩]]
            [⟨"f", ["s","f"], false⟩])) =
        fileEntriesRec (Directory.mk "s" ["s"]
          [Directory.mk "d" ["s","d"] [] [⟨"x", ["s","d","x"], true⟩]]
          [⟨"f", ["s","f"], false⟩])
      ∧ dirPathsRec (compare_and_submit_dir_structs
          (Directory.mk "s" ["s"]
            [Directory.mk "d" ["s","d"] [] [⟨"x", ["s","d","x"], true⟩]]
            [⟨"f", ["s","f"], false⟩])
          (Directory.mk "s" ["s"]
            [Directory.mk "d" ["s","d"] [] [⟨"x", ["s","d","x"], true⟩]]
            [⟨"f", ["s","f"], false⟩])) =
        dirPathsRec (Directory.mk "s" ["s"]
          [Directory.mk "d" ["s","d"] [] [⟨"x", ["s","d","x"], true⟩]]
          [⟨"f", ["s","f"], false⟩])) :=
  ⟨by decide,
   merge_idempotent
     (Directory.mk "s" ["s"]
       [Directory.mk "d" ["s","d"] [] [⟨"x", ["s","d","x"], true⟩]]
       [⟨"f", ["s","f"], false⟩]) (by decide)⟩

/-! ## The chunking helper (`divide_into_chunks`, `src/helper/mod.rs`)

Rust `String`s are modelled here as lists of characters (`List Char`), and
`text.split("\n")` by `splitNl`. -/

/-- Rust `text.split("\n")` collected to a vector: splitting an empty string
yields one empty part, a trailing separator yields a trailing empty part. -/
def splitNl (cs : List Char) : List (List Char) :=
  match cs with
  | [] => [[]]
  | c :: rest =>
    let r := splitNl rest
    if c = '\n' then [] :: r
    else
      match r with
      | h :: t => (c :: h) :: t
      | [] => [[c]]

/-- The `for (id, part) in parts.enumerate()` loop of `divide_into_chunks`:
each part is appended to the running chunk followed by a newline; the chunk is
flushed when `id > 0 && id % lines_per_chunk == 0`; a non-empty leftover is
flushed at the end. -/
def chunksLoop (lines_per_chunk : Nat) :
    List (List Char) → Nat → List Char → List (List Char)
  | [], _, temp_res => if temp_res.isEmpty then [] else [temp_res]
  | part :: rest, id, temp_res =>
    let temp' := temp_res ++ part ++ ['\n']
    if id > 0 && id % lines_per_chunk == 0 then
      temp' :: chunksLoop lines_per_chunk rest (id + 1) []
    else
      chunksLoop lines_per_chunk rest (id + 1) temp'

/-- Rust `divide_into_chunks` from `src/helper/mod.rs` (lines 33-56): texts without
a newline, and a chunk size of zero, are returned whole; otherwise the text is
split on newlines and re-assembled by the enumerate loop. -/
def divide_into_chunks (text : List Char) (lines_per_chunk : Nat) :
    List (List Char) :=
  if ¬ text.contains '\n' ∨ lines_per_chunk = 0 then [text]
  else chunksLoop lines_per_chunk (splitNl text) 0 []

set_option maxRecDepth 100000 in
/-- C3 (refuted — the code contradicts its own doc comment): for the default
chunk size 100 used by `translate_contents` (`LINES_PER_CHUNK = 100`), a text
of 101 newline-separated lines is divided into a single chunk holding 101
newline-terminated lines, because the flush condition
`id > 0 && id % lines_per_chunk == 0` first fires only after part number
`lines_per_chunk` has been appended.  So it is not the case that every chunk
contains at most 100 lines. -/
theorem divide_into_chunks_first_chunk_overflow :
    (divide_into_chunks ((List.replicate 100 ['a', '\n']).flatten ++ ['a']) 100).map
      (fun c => c.count '\n') = [101] := by decide

/-! ## The on-disk filesystem model -/

/-- One entry of a real directory on disk: a subdirectory with its contents, a
regular file with its contents, a symbolic link, or an unreadable directory —
a directory whose `read_dir` fails with an I/O error, which is how scan-time
I/O failures are exhibited. -/
inductive DiskEntry where
  | dir (name : String) (entries : List DiskEntry)
  | file (name : String) (contents : List Char)
  | symlink (name : String)
  | unreadable (name : String)

/-- The file name of a disk entry. -/
def DiskEntry.name : DiskEntry → String
  | .dir n _ => n
  | .file n _ => n
  | .symlink n => n
  | .unreadable n => n

/-- Look an entry up by a root-relative path (`[]` is the root itself, which
is not an entry). -/
def lookupEntry : List DiskEntry → Path → Option DiskEntry
  | _, [] => none
  | es, [n] => es.find? (fun e => e.name == n)
  | es, n :: rest =>
    match es.find? (fun e => e.name == n) with
    | some (.dir _ sub) => lookupEntry sub rest
    | _ => none

/-- Rust `Path::exists` for a root-relative path. -/
def existsRel (es : List DiskEntry) (rel : Path) : Bool :=
  (lookupEntry es rel).isSome

/-- Rust `Path::is_dir` for a root-relative path (an unreadable directory is still
a directory). -/
def isDirRel (es : List DiskEntry) (rel : Path) : Bool :=
  match lookupEntry es rel with
  | some (.dir _ _) => true
  | some (.unreadable _) => true
  | _ => false

/-- Rust `Path::is_file` for a root-relative path. -/
def isFileRel (es : List DiskEntry) (rel : Path) : Bool :=
  match lookupEntry es rel with
  | some (.file _ _) => true
  | _ => false

/-- Read a regular file's contents at a root-relative path. -/
def readFileRel (es : List DiskEntry) (rel : Path) : Option (List Char) :=
  match lookupEntry es rel with
  | some (.file _ c) => some c
  | _ => none

/-- Rust `Path::exists` for an absolute path under the project root (paths outside
the root are not modelled and report absent). -/
def existsAbs (root : Path) (es : List DiskEntry) (p : Path) : Bool :=
  match pathRel root p with
  | some rel => existsRel es rel
  | none => false

/-- Rust `Path::is_dir` for an absolute path under the project root. -/
def isDirAbs (root : Path) (es : List DiskEntry) (p : Path) : Bool :=
  match pathRel root p with
  | some rel => isDirRel es rel
  | none => false

/-- Rust `Path::is_file` for an absolute path under the project root. -/
def isFileAbs (root : Path) (es : List DiskEntry) (p : Path) : Bool :=
  match pathRel root p with
  | some rel => isFileRel es rel
  | none => false

/-- Read a file by absolute path under the project root. -/
def readFileAbs (root : Path) (es : List DiskEntry) (p : Path) : Option (List Char) :=
  match pathRel root p with
  | some rel => readFileRel es rel
  | none => none

/-- Create or overwrite a regular file at a root-relative path, as
`fs::copy`/`OpenOptions::create(true).truncate(true)` do; fails (`none`) when
the parent is missing or unreadable or the path names a subdirectory. -/
def setFileRel : List DiskEntry → Path → List Char → Option (List DiskEntry)
  | _, [], _ => none
  | es, [n], c =>
    match es.find? (fun e => e.name == n) with
    | some (.dir _ _) => none
    | some (.unreadable _) => none
    | some _ => some (es.map (fun e => if e.name == n then .file n c else e))
    | none => some (es ++ [.file n c])
  | es, n :: rest, c =>
    match es.find? (fun e => e.name == n) with
    | some (.dir _ sub) =>
      match setFileRel sub rest c with
      | some sub2 => some (es.map (fun e => if e.name == n then .dir n sub2 else e))
      | none => none
    | _ => none

/-- Rust `fs::create_dir` at a root-relative path: the parent must exist and be a
readable directory, the entry must not exist yet. -/
def createDirRel : List DiskEntry → Path → Option (List DiskEntry)
  | _, [] => none
  | es, [n] =>
    if (es.find? (fun e => e.name == n)).isSome then none
    else some (es ++ [.dir n []])
  | es, n :: rest =>
    match es.find? (fun e => e.name == n) with
    | some (.dir _ sub) =>
      match createDirRel sub rest with
      | some sub2 => some (es.map (fun e => if e.name == n then .dir n sub2 else e))
      | none => none
    | _ => none

/-- Rust `fs::remove_dir_all` (or `remove_file`) at a root-relative path: drop the
entry; removing an absent entry leaves the disk unchanged. -/
def removeRel : List DiskEntry → Path → List DiskEntry
  | es, [] => es
  | es, [n] => es.filter (fun e => ¬ e.name == n)
  | es, n :: rest =>
    es.map (fun e =>
      match e with
      | .dir m sub => if m == n then .dir m (removeRel sub rest) else .dir m sub
      | e2 => e2)

/-- Replace the contents of the directory at a root-relative path (used to
write back the result of pruning a target tree). -/
def setDirEntriesRel : List DiskEntry → Path → List DiskEntry → List DiskEntry
  | es, [], _ => es
  | es, [n], newsub =>
    es.map (fun e =>
      match e with
      | .dir m sub => if m == n then .dir m newsub else .dir m sub
      | e2 => e2)
  | es, n :: rest, newsub =>
    es.map (fun e =>
      match e with
      | .dir m sub => if m == n then .dir m (setDirEntriesRel sub rest newsub) else .dir m sub
      | e2 => e2)

/-! ## The scanner (`build_tree`, `src/project_config/mod.rs` lines 281-314) -/

/-- The entry loop of `build_tree`'s `recurse`, over the contents of the
directory at absolute path `p`: a symbolic link is skipped (`meta.is_symlink`
continues the loop), a subdirectory is scanned recursively into a `Directory`
child, a regular file becomes a `File` record with `translatable = false`, and
an unreadable directory aborts the whole scan with its I/O error. -/
def buildTreeAux (p : Path) : List DiskEntry → Except Unit (List Directory × List File)
  | [] => .ok ([], [])
  | .symlink _ :: rest => buildTreeAux p rest
  | .file n _ :: rest =>
    match buildTreeAux p rest with
    | .ok (ds, fs) => .ok (ds, (⟨n, p ++ [n], false⟩ : File) :: fs)
    | .error e => .error e
  | .dir n sub :: rest =>
    match buildTreeAux (p ++ [n]) sub with
    | .ok (sds, sfs) =>
      match buildTreeAux p rest with
      | .ok (ds, fs) =>
        .ok (Directory.mk (fileNameOf (p ++ [n])) (p ++ [n]) sds sfs :: ds, fs)
      | .error e => .error e
    | .error e => .error e
  | .unreadable _ :: _ => .error ()
termination_by l => sizeOf l
decreasing_by
  all_goals simp only [List.cons.sizeOf_spec, DiskEntry.dir.sizeOf_spec,
    DiskEntry.file.sizeOf_spec, DiskEntry.symlink.sizeOf_spec]
  all_goals omega

/-- Rust `build_tree` from `src/project_config/mod.rs`: scan the contents of the
directory at absolute path `p` into a `Directory` model rooted at
`Directory::new(p)`. -/
def build_tree (p : Path) (entries : List DiskEntry) : Except Unit Directory :=
  match buildTreeAux p entries with
  | .ok (ds, fs) => .ok (Directory.mk (fileNameOf p) p ds fs)
  | .error e => .error e

/-- Rust `build_tree` applied to an absolute path under the project root, as the
lifecycle operations call it: resolve the path on disk first; a missing path,
a non-directory, or an unreadable directory is the scan's I/O error. -/
def buildTreeAbs (root : Path) (disk : List DiskEntry) (abs : Path) :
    Except Unit Directory :=
  match pathRel root abs with
  | none => .error ()
  | some [] => build_tree abs disk
  | some rel =>
    match lookupEntry disk rel with
    | some (.dir _ sub) => build_tree abs sub
    | _ => .error ()

theorem buildTreeAux_spec (entries : List DiskEntry) : ∀ (p : Path)
    (ds : List Directory) (fs : List File),
    buildTreeAux p entries = .ok (ds, fs) →
    fs = entries.filterMap (fun e =>
        match e with
        | .file n _ => some (⟨n, p ++ [n], false⟩ : File)
        | _ => none)
    ∧ ds = entries.filterMap (fun e =>
        match e with
        | .dir n sub => (build_tree (p ++ [n]) sub).toOption
        | _ => none) := by
  induction entries with
  | nil =>
    intro p ds fs h
    rw [buildTreeAux] at h
    injection h with h2
    injection h2 with hds hfs
    subst hds
    subst hfs
    exact ⟨rfl, rfl⟩
  | cons e rest ih =>
    intro p ds fs h
    cases e with
    | symlink n =>
      rw [buildTreeAux] at h
      have h2 := ih p ds fs h
      simpa using h2
    | file n c =>
      rw [buildTreeAux] at h
      cases hrest : buildTreeAux p rest with
      | ok pr =>
        obtain ⟨ds2, fs2⟩ := pr
        rw [hrest] at h
        injection h with h2
        injection h2 with hds hfs
        subst hds
        subst hfs
        have h3 := ih p ds2 fs2 hrest
        simp only [List.filterMap_cons]
        exact ⟨by rw [h3.1], by rw [h3.2]⟩
      | error e2 =>
        rw [hrest] at h
        cases h
    | dir n sub =>
      rw [buildTreeAux] at h
      cases hsub : buildTreeAux (p ++ [n]) sub with
      | ok prs =>
        obtain ⟨sds, sfs⟩ := prs
        rw [hsub] at h
        cases hrest : buildTreeAux p rest with
        | ok pr =>
          obtain ⟨ds2, fs2⟩ := pr
          rw [hrest] at h
          injection h with h2
          injection h2 with hds hfs
          subst hds
          subst hfs
          have h3 := ih p ds2 fs2 hrest
          have hbt : build_tree (p ++ [n]) sub =
              .ok (Directory.mk (fileNameOf (p ++ [n])) (p ++ [n]) sds sfs) := by
            rw [build_tree, hsub]
          simp only [List.filterMap_cons, hbt]
          exact ⟨by rw [h3.1], by rw [h3.2]; rfl⟩
        | error e2 =>
          rw [hrest] at h
          cases h
      | error e2 =>
        rw [hsub] at h
        cases h
    | unreadable n =>
      rw [buildTreeAux] at h
      cases h

/-- C7: on every successful scan, the resulting model is rooted at the scanned
path; its files are exactly the regular-file entries, in order, each a leaf
with path `p/name` and `translatable = false`; its subdirectories are exactly
the directory entries, each scanned recursively; and symbolic-link entries
contribute no record at all (the two `filterMap` equations map them to
nothing). -/
theorem build_tree_spec (p : Path) (entries : List DiskEntry) (d : Directory)
    (h : build_tree p entries = .ok d) :
    d.path = p
    ∧ d.files = entries.filterMap (fun e =>
        match e with
        | .file n _ => some (⟨n, p ++ [n], false⟩ : File)
        | _ => none)
    ∧ d.dirs = entries.filterMap (fun e =>
        match e with
        | .dir n sub => (build_tree (p ++ [n]) sub).toOption
        | _ => none)
    ∧ (∀ f ∈ d.files, f.translatable = false) := by
  rw [build_tree] at h
  cases haux : buildTreeAux p entries with
  | ok pr =>
    obtain ⟨ds, fs⟩ := pr
    rw [haux] at h
    injection h with h2
    subst h2
    have h3 := buildTreeAux_spec entries p ds fs haux
    refine ⟨rfl, by simpa using h3.1, by simpa using h3.2, ?_⟩
    intro f hf
    simp only [Directory.files_mk] at hf
    rw [h3.1] at hf
    rcases List.mem_filterMap.mp hf with ⟨e, _, he⟩
    cases e with
    | file n2 c2 =>
      have he3 : some (⟨n2, p ++ [n2], false⟩ : File) = some f := he
      have he2 : (⟨n2, p ++ [n2], false⟩ : File) = f := by injection he3
      rw [← he2]
    | dir n2 sub2 => simp at he
    | symlink n2 => simp at he
    | unreadable n2 => simp at he
  | error e2 =>
    rw [haux] at h
    cases h

unseal buildTreeAux in
theorem build_tree_spec_witness :
    build_tree ["r"] [.file "a" ['x'], .symlink "c", .dir "sub" [.file "b" []]] =
      .ok (Directory.mk "r" ["r"]
        [Directory.mk "sub" ["r","sub"] [] [⟨"b", ["r","sub","b"], false⟩]]
        [⟨"a", ["r","a"], false⟩])
    ∧ ∀ f ∈ (Directory.mk "r" ["r"]
        [Directory.mk "sub" ["r","sub"] [] [⟨"b", ["r","sub","b"], false⟩]]
        [⟨"a", ["r","a"], false⟩]).files, f.translatable = false := by
  have h : build_tree ["r"] [.file "a" ['x'], .symlink "c", .dir "sub" [.file "b" []]] =
      .ok (Directory.mk "r" ["r"]
        [Directory.mk "sub" ["r","sub"] [] [⟨"b", ["r","sub","b"], false⟩]]
        [⟨"a", ["r","a"], false⟩]) := rfl
  exact ⟨h, (build_tree_spec ["r"] _ _ h).2.2.2⟩

/-! ## The pruner (`remove_files_not_in_source_dir`, `src/project/mod.rs`
lines 398-468) -/

/-- One level of `remove_files_not_in_source_dir`, walking the on-disk entries
of the target directory against the reference model `source_dir_model`:

* an entry that `symlink_metadata` reports as a directory is deleted wholesale
  (`remove_dir_all`) when its name is not among the model's subdirectory
  names, and recursed into (with the matching model subdirectory found by
  `find`) otherwise; the `none` fallback mirrors the code's "Logic error"
  return, unreachable because `contains` and `find` use the same names;
* a regular file survives exactly when its name is among the model's file
  names;
* a symbolic link is neither `is_dir` nor `is_file` for `symlink_metadata`,
  so it falls through the `if` chain untouched;
* an unreadable directory aborts with an I/O error on either branch
  (`remove_dir_all` and the recursive `read_dir` both have to list it).

The Bool is `true` on success; on `false` (an I/O error) the walk stops:
entries already deleted stay deleted and the remaining entries stay as they
are, with no rollback.  The two path arguments are only threaded along for
the recursive calls, as in the Rust code. -/
def remove_files_not_in_source_dir (from_dir_path to_dir_path : Path)
    (source_dir_model : Directory) : List DiskEntry → List DiskEntry × Bool
  | [] => ([], true)
  | .symlink n :: rest =>
    let pr := remove_files_not_in_source_dir from_dir_path to_dir_path
      source_dir_model rest
    (.symlink n :: pr.1, pr.2)
  | .file n c :: rest =>
    if (source_dir_model.files.map File.name).contains n then
      let pr := remove_files_not_in_source_dir from_dir_path to_dir_path
        source_dir_model rest
      (.file n c :: pr.1, pr.2)
    else
      remove_files_not_in_source_dir from_dir_path to_dir_path source_dir_model rest
  | .dir n sub :: rest =>
    if (source_dir_model.dirs.map Directory.name).contains n then
      match source_dir_model.dirs.find? (fun dm => dm.name == n) with
      | some sub_dir_model =>
        match remove_files_not_in_source_dir (from_dir_path ++ [n])
            (to_dir_path ++ [n]) sub_dir_model sub with
        | (sub2, true) =>
          let pr := remove_files_not_in_source_dir from_dir_path to_dir_path
            source_dir_model rest
          (.dir n sub2 :: pr.1, pr.2)
        | (sub2, false) => (.dir n sub2 :: rest, false)
      | none => (.dir n sub :: rest, false)
    else
      remove_files_not_in_source_dir from_dir_path to_dir_path source_dir_model rest
  | .unreadable n :: rest => (.unreadable n :: rest, false)
termination_by l => sizeOf l
decreasing_by
  all_goals simp only [List.cons.sizeOf_spec, DiskEntry.dir.sizeOf_spec,
    DiskEntry.file.sizeOf_spec, DiskEntry.symlink.sizeOf_spec]
  all_goals omega

/-- The name-paths of all symbolic links anywhere in a disk tree. -/
def symlinkPathsL : List DiskEntry → List Path
  | [] => []
  | .symlink n :: rest => [n] :: symlinkPathsL rest
  | .dir n sub :: rest =>
    (symlinkPathsL sub).map (fun q => n :: q) ++ symlinkPathsL rest
  | .file _ _ :: rest => symlinkPathsL rest
  | .unreadable _ :: rest => symlinkPathsL rest
termination_by l => sizeOf l
decreasing_by
  all_goals simp only [List.cons.sizeOf_spec, DiskEntry.dir.sizeOf_spec,
    DiskEntry.file.sizeOf_spec, DiskEntry.symlink.sizeOf_spec]
  all_goals omega

unseal remove_files_not_in_source_dir symlinkPathsL in
/-- C8 (refuted as stated): with a source model containing no subdirectories,
pruning a target holding `stale/s` (a symlink `s` inside a stale directory
`stale`) removes the whole `stale` subtree with `remove_dir_all` — the run
succeeds and the symlink at `stale/s` is deleted with it.  So it is not true
that a symlink on disk is never deleted during a prune run. -/
theorem prune_deletes_nested_symlink :
    symlinkPathsL [.dir "stale" [.symlink "s"]] = [["stale", "s"]]
    ∧ (remove_files_not_in_source_dir ["r", "src"] ["r", "tgt"]
        (Directory.mk "src" ["r", "src"] [] [])
        [.dir "stale" [.symlink "s"]]).2 = true
    ∧ symlinkPathsL (remove_files_not_in_source_dir ["r", "src"] ["r", "tgt"]
        (Directory.mk "src" ["r", "src"] [] [])
        [.dir "stale" [.symlink "s"]]).1 = [] := by
  refine ⟨by decide, by decide, by decide⟩

/-- C8 (amended): a symlink entry of a directory level that the pruner itself
walks is never deleted and never recursed into, regardless of whether its name
appears in the source model: every symlink entry of the walked entry list
survives in place (for any model, so model membership is irrelevant), and
kept subdirectories are processed by this same function, so the property holds
at every level the walk reaches.  Only a symlink nested inside a subtree that
is removed wholesale disappears with that subtree. -/
theorem prune_preserves_walked_symlinks (from_dir to_dir : Path)
    (model : Directory) (disk : List DiskEntry) :
    ∀ n, DiskEntry.symlink n ∈ disk →
      DiskEntry.symlink n ∈
        (remove_files_not_in_source_dir from_dir to_dir model disk).1 := by
  induction disk with
  | nil =>
    intro n h
    cases h
  | cons e rest ih =>
    intro n h
    cases e with
    | symlink m =>
      rw [remove_files_not_in_source_dir]
      rcases List.mem_cons.mp h with h1 | h2
      · injection h1 with h1
        subst h1
        exact List.mem_cons_self _ _
      · exact List.mem_cons_of_mem _ (ih n h2)
    | file m c =>
      have h2 : DiskEntry.symlink n ∈ rest := by
        rcases List.mem_cons.mp h with h1 | h2
        · cases h1
        · exact h2
      rw [remove_files_not_in_source_dir]
      by_cases hc : (model.files.map File.name).contains m
      · rw [if_pos hc]
        exact List.mem_cons_of_mem _ (ih n h2)
      · rw [if_neg hc]
        exact ih n h2
    | dir m sub =>
      have h2 : DiskEntry.symlink n ∈ rest := by
        rcases List.mem_cons.mp h with h1 | h2
        · cases h1
        · exact h2
      rw [remove_files_not_in_source_dir]
      split
      · split
        · split
          · exact List.mem_cons_of_mem _ (ih n h2)
          · exact List.mem_cons_of_mem _ h2
        · exact List.mem_cons_of_mem _ h2
      · exact ih n h2
    | unreadable m =>
      have h2 : DiskEntry.symlink n ∈ rest := by
        rcases List.mem_cons.mp h with h1 | h2
        · cases h1
        · exact h2
      rw [remove_files_not_in_source_dir]
      exact List.mem_cons_of_mem _ h2

theorem prune_preserves_walked_symlinks_witness :
    DiskEntry.symlink "s" ∈ ([.symlink "s", .file "x" []] : List DiskEntry)
    ∧ DiskEntry.symlink "s" ∈
        (remove_files_not_in_source_dir ["r", "src"] ["r", "tgt"]
          (Directory.mk "src" ["r", "src"] [] [])
          [.symlink "s", .file "x" []]).1 :=
  ⟨List.mem_cons_self _ _,
   prune_preserves_walked_symlinks ["r", "src"] ["r", "tgt"]
     (Directory.mk "src" ["r", "src"] [] [])
     [.symlink "s", .file "x" []] "s" (List.mem_cons_self _ _)⟩

/-! ## Project configuration (`ProjectConfig`, `LangDir`) and its operations -/

/-- Rust `LangDir`: a directory model paired with its language. -/
structure LangDir where
  dir : Directory
  language : Language

/-- Rust `ProjectConfig`: project name, target language directories (in order),
optional source directory. -/
structure ProjectConfig where
  name : String
  lang_dirs : List LangDir
  src_dir : Option LangDir

/-- Rust `ProjectConfig::new` as used by `init`. -/
def ProjectConfig.new (proj_name : String) : ProjectConfig :=
  ⟨proj_name, [], none⟩

/-- Rust `Project::get_src_lang`. -/
def ProjectConfig.getSrcLang (c : ProjectConfig) : Option Language :=
  c.src_dir.map (fun ld => ld.language)

/-- Rust `ProjectConfig::get_src_dir_path`. -/
def ProjectConfig.get_src_dir_path (c : ProjectConfig) : Option Path :=
  c.src_dir.map (fun ld => ld.dir.path)

/-- Rust `ProjectConfig::get_tgt_dir_path_by_lang`: the path of the first target
with the given language. -/
def ProjectConfig.get_tgt_dir_path_by_lang (c : ProjectConfig) (lang : Language) :
    Option Path :=
  (c.lang_dirs.find? (fun ld => ld.language == lang)).map (fun ld => ld.dir.path)

/-- Rust `ProjectConfig::remove_lang` (lines 158-168): the loop remembers the index
of the LAST target with the given language, which is then removed (if any). -/
def ProjectConfig.remove_lang (c : ProjectConfig) (lang : Language) : ProjectConfig :=
  let idx : Option Nat := c.lang_dirs.enum.foldl
    (fun acc pr => if pr.2.language == lang then some pr.1 else acc) none
  match idx with
  | some i => { c with lang_dirs := c.lang_dirs.eraseIdx i }
  | none => c

/-- The `for file in &mut dir.files` loop of `find_file_and_apply`: apply
`func` to the first file whose path matches, leaving the rest untouched. -/
def findFileApplyFiles (func : File → File) : List File → Path → List File × Bool
  | [], _ => ([], false)
  | f :: rest, p =>
    if f.path = p then (func f :: rest, true)
    else
      let pr := findFileApplyFiles func rest p
      (f :: pr.1, pr.2)

mutual

/-- Rust `find_file_and_apply` (`src/project_config/mod.rs` lines 262-278): search
this directory's files, then its subdirectories in order, applying `func` to
the first file whose path matches; the Bool reports whether it was found. -/
def find_file_and_apply (func : File → File) :
    Directory → Path → Directory × Bool
  | .mk n dp ds fs, p =>
    let prf := findFileApplyFiles func fs p
    if prf.2 then (.mk n dp ds prf.1, true)
    else
      let prd := findFileApplyDirs func ds p
      (.mk n dp prd.1 fs, prd.2)
termination_by d _ => sizeOf d
decreasing_by
  all_goals simp only [Directory.mk.sizeOf_spec, List.cons.sizeOf_spec]
  all_goals omega

/-- The `for sub_dir in &mut dir.dirs` loop of `find_file_and_apply`. -/
def findFileApplyDirs (func : File → File) :
    List Directory → Path → List Directory × Bool
  | [], _ => ([], false)
  | d :: rest, p =>
    match find_file_and_apply func d p with
    | (d2, true) => (d2 :: rest, true)
    | (_, false) =>
      let pr := findFileApplyDirs func rest p
      (d :: pr.1, pr.2)
termination_by l _ => sizeOf l
decreasing_by
  all_goals simp only [Directory.mk.sizeOf_spec, List.cons.sizeOf_spec]
  all_goals omega

end

theorem sum_sizeOf_lt (ds : List Directory) : (ds.map sizeOf).sum < sizeOf ds := by
  induction ds with
  | nil => simp
  | cons a l ih =>
    simp only [List.map_cons, List.sum_cons, List.cons.sizeOf_spec]
    omega

theorem Directory.sizeOf_dirs_lt2 (d : Directory) : sizeOf d.dirs < sizeOf d := by
  cases d with
  | mk n p ds fs =>
    simp only [Directory.dirs_mk, Directory.mk.sizeOf_spec]
    omega

/-- The BFS queue loop of `get_translatable_files`: pop the front directory,
collect the paths of its files flagged translatable, push its subdirectories
at the back of the queue. -/
def collectTranslatableBfs : List Directory → List Path
  | [] => []
  | d :: queue =>
    (d.files.filter (fun f => f.translatable)).map File.path ++
      collectTranslatableBfs (queue ++ d.dirs)
termination_by l => (l.map sizeOf).sum
decreasing_by
  simp only [List.map_append, List.sum_append, List.map_cons, List.sum_cons]
  have h1 := sum_sizeOf_lt d.dirs
  have h2 := Directory.sizeOf_dirs_lt2 d
  omega

/-- Rust `ProjectConfig::get_translatable_files` (lines 219-238): breadth-first
collection of the paths of all translatable files under the source model;
the error is `GetTranslatableFilesError::NoSourceLang`. -/
def ProjectConfig.get_translatable_files (c : ProjectConfig) :
    Except Unit (List Path) :=
  match c.src_dir with
  | none => .error ()
  | some ld => .ok (collectTranslatableBfs [ld.dir])

/-- Error type of `update_source_dir_config` (payloads dropped). -/
inductive UpdateSourceDirConfigError where
  | NoSourceLang
  | AnalyzeDirError
deriving DecidableEq

/-- Rust `ProjectConfig::update_source_dir_config` (lines 241-257): rescan the
stored source path from disk and merge the old model with the fresh scan,
keeping the language. -/
def update_source_dir_config (root : Path) (disk : List DiskEntry)
    (c : ProjectConfig) : Except UpdateSourceDirConfigError ProjectConfig :=
  match c.src_dir with
  | none => .error .NoSourceLang
  | some ld =>
    match buildTreeAbs root disk ld.dir.path with
    | .error _ => .error .AnalyzeDirError
    | .ok new_dir =>
      .ok { c with
             src_dir := some (LangDir.mk
               (compare_and_submit_dir_structs ld.dir new_dir) ld.language) }

/-- Rust `ProjectConfig::analyze_lang_dirs` (lines 169-176): rescan every target
directory from disk in order, aborting at the first scan error: targets before
the failure keep their fresh trees, the failing one and those after it stay
unchanged.  The Bool is `true` when every rescan succeeded. -/
def analyze_lang_dirs (root : Path) (disk : List DiskEntry) :
    List LangDir → List LangDir × Bool
  | [] => ([], true)
  | ld :: rest =>
    match buildTreeAbs root disk ld.dir.path with
    | .ok t =>
      let pr := analyze_lang_dirs root disk rest
      (⟨t, ld.language⟩ :: pr.1, pr.2)
    | .error _ => (ld :: rest, false)

/-! ## The distributor (`copy_untranslatable_files`, `src/project/mod.rs`
lines 345-388) -/

/-- One `fs::copy(full_path, new_path)` with its result discarded
(`let _ = std::fs::copy(...)`): read the source file and write its contents at
the destination; any failure (missing source, missing destination parent)
leaves the disk unchanged. -/
def copyFileBestEffort (root : Path) (disk : List DiskEntry)
    (fromAbs toAbs : Path) : List DiskEntry :=
  match readFileAbs root disk fromAbs with
  | some c =>
    match pathRel root toAbs with
    | some rel =>
      match setFileRel disk rel c with
      | some disk2 => disk2
      | none => disk
    | none => disk
  | none => disk

/-- The file loop of `copy_untranslatable_files_rec`: translatable files are
skipped; for each remaining file the path relative to the source root is
computed (`strip_prefix`, aborting with `StripPathError` on failure — the
Bool is `false`) and the contents are copied best-effort to the same relative
path under the target root. -/
def copyFilesLoop (root from_dir to_dir : Path) :
    List File → List DiskEntry → List DiskEntry × Bool
  | [], disk => (disk, true)
  | f :: rest, disk =>
    if f.translatable then copyFilesLoop root from_dir to_dir rest disk
    else
      match pathRel from_dir f.path with
      | none => (disk, false)
      | some rel =>
        copyFilesLoop root from_dir to_dir rest
          (copyFileBestEffort root disk f.path (to_dir ++ rel))

mutual

/-- Rust `copy_untranslatable_files_rec` (lines 356-388): copy this directory's
untranslatable files, then process each subdirectory — compute its relative
path, `create_dir` the matching directory under the target root when absent
(aborting on failure), and recurse with the same two roots. -/
def copy_untranslatable_files_rec (root from_dir to_dir : Path) :
    Directory → List DiskEntry → List DiskEntry × Bool
  | d, disk =>
    match copyFilesLoop root from_dir to_dir d.files disk with
    | (disk1, true) => copySubdirsLoop root from_dir to_dir d.dirs disk1
    | (disk1, false) => (disk1, false)
termination_by d _ => sizeOf d
decreasing_by
  have := Directory.sizeOf_dirs_lt2 d
  omega

/-- The `for sub_dir in dir.get_dirs_as_ref()` loop of
`copy_untranslatable_files_rec`. -/
def copySubdirsLoop (root from_dir to_dir : Path) :
    List Directory → List DiskEntry → List DiskEntry × Bool
  | [], disk => (disk, true)
  | sub :: rest, disk =>
    match pathRel from_dir sub.path with
    | none => (disk, false)
    | some rel =>
      let new_path := to_dir ++ rel
      let created :=
        if existsAbs root disk new_path then some disk
        else
          match pathRel root new_path with
          | some nrel => createDirRel disk nrel
          | none => none
      match created with
      | none => (disk, false)
      | some disk2 =>
        match copy_untranslatable_files_rec root from_dir to_dir sub disk2 with
        | (disk3, true) => copySubdirsLoop root from_dir to_dir rest disk3
        | (disk3, false) => (disk3, false)
termination_by l _ => sizeOf l
decreasing_by
  all_goals simp only [List.cons.sizeOf_spec]
  all_goals omega

end

/-- Rust `copy_untranslatable_files` (lines 345-354). -/
def copy_untranslatable_files (root_path : Path) (from_name to_name : String)
    (from_structure : Directory) (disk : List DiskEntry) :
    List DiskEntry × Bool :=
  copy_untranslatable_files_rec root_path (root_path ++ [from_name])
    (root_path ++ [to_name]) from_structure disk

/-! ## The lifecycle manager (`Project`, `src/project/mod.rs`) -/

/-- Error type of `set_source_dir` (payloads dropped). -/
inductive SetSourceDirError where
  | DirectoryDoesNotExist
  | IncorrectPath
  | NotDirectory
  | AnalyzeDirError
  | LangAlreadyInTheProj
deriving DecidableEq

/-- Error type of `add_lang` (payloads dropped). -/
inductive AddLanguageError where
  | LangAlreadyInTheProj
  | IoError
  | NoSourceLang
  | LangDirExists
deriving DecidableEq

/-- Error type of `remove_lang` (payloads dropped; the crate's spelling). -/
inductive RemoveLangaugeError where
  | IoError
  | LangDirDoesNotExist
  | TargetLanguageNotInProject
deriving DecidableEq

/-- Error type of `sync_files` (payloads dropped). -/
inductive SyncFilesError where
  | NoSourceLang
  | NoTransLangs
  | CopyError
  | BuildingConfigError
  | RemoveUntrackedError
  | ConfigWritingError
  | UpdateStructureError
deriving DecidableEq

/-- Error type of `make_translatable_file`/`make_untranslatable_file`
(payloads dropped). -/
inductive AddTranslatableFileError where
  | NoSourceLang
  | NoFile
  | ConfigWritingError
deriving DecidableEq

/-- Error type of `translate_file`/`translate_all` (payloads dropped). -/
inductive TranslateFileError where
  | NoSourceLang
  | NoTransLangs
  | FileNotExist
  | UntranslatableFile
  | TranslatableFilesError
  | TargetLanguageNotInProject
  | IoError
deriving DecidableEq

/-- Outcome of an operation that can `panic!` or `unwrap()` a `None`:
`panicked` is an abnormal abort, not an error return. -/
inductive PanicOr (α : Type) where
  | panicked
  | normal (val : α)

/-- The runtime `Project` together with its environment: the root path, the
in-memory config, the disk contents of the project root, and the persisted
manifest (`trans_conf.json`), modelled as the last config successfully written
by `write_conf` (writing is modelled as always succeeding). -/
structure ProjState where
  path_to_root : Path
  config : ProjectConfig
  disk : List DiskEntry
  manifest : Option ProjectConfig

/-- Rust `Project::set_source_dir` (lines 103-139): check the directory exists and
is a directory, check the language against the current source and every
target; then `set_src_dir` scans and stores the tree — but its `Result` is
DISCARDED (`let _ = ...`), so a scan failure leaves the config unchanged —
and the config is persisted (write result also discarded).  Every non-error
branch returns `Ok(())`. -/
def set_source_dir (st : ProjState) (dir_name : String) (lang : Language) :
    Except SetSourceDirError Unit × ProjState :=
  let full_dir_path := st.path_to_root ++ [dir_name]
  if ¬ existsAbs st.path_to_root st.disk full_dir_path then
    (.error .DirectoryDoesNotExist, st)
  else if ¬ isDirAbs st.path_to_root st.disk full_dir_path then
    (.error .NotDirectory, st)
  else if (match st.config.getSrcLang with
           | some src_lang => src_lang == lang
           | none => false) then
    (.error .LangAlreadyInTheProj, st)
  else if (st.config.lang_dirs.map LangDir.language).contains lang then
    (.error .LangAlreadyInTheProj, st)
  else
    let cfg2 :=
      match buildTreeAbs st.path_to_root st.disk full_dir_path with
      | .ok d => { st.config with src_dir := some (LangDir.mk d lang) }
      | .error _ => st.config
    (.ok (), { st with config := cfg2, manifest := some cfg2 })

/-- Rust `Project::add_lang` (lines 142-177): refuse when the language's directory
already exists on disk, when there is no source, or when the language equals
the source's or an existing target's; otherwise create the directory, scan it
(empty), append it to the targets, and persist. -/
def add_lang (st : ProjState) (lang : Language) :
    Except AddLanguageError Unit × ProjState :=
  let dir_name := st.config.name ++ lang.get_dir_suffix
  let new_path := st.path_to_root ++ [dir_name]
  if existsAbs st.path_to_root st.disk new_path then
    (.error .LangDirExists, st)
  else
    match st.config.getSrcLang with
    | none => (.error .NoSourceLang, st)
    | some src_lang =>
      if src_lang == lang then (.error .LangAlreadyInTheProj, st)
      else if (st.config.lang_dirs.map LangDir.language).contains lang then
        (.error .LangAlreadyInTheProj, st)
      else
        match pathRel st.path_to_root new_path with
        | none => (.error .IoError, st)
        | some nrel =>
          match createDirRel st.disk nrel with
          | none => (.error .IoError, st)
          | some disk2 =>
            match buildTreeAbs st.path_to_root disk2 new_path with
            | .error _ => (.error .IoError, { st with disk := disk2 })
            | .ok d =>
              let cfg2 := { st.config with
                lang_dirs := st.config.lang_dirs ++ [LangDir.mk d lang] }
              (.ok (),
                { st with disk := disk2, config := cfg2, manifest := some cfg2 })

/-- Rust `Project::remove_lang` (lines 180-195): look up the target's path, check
it exists and is a directory, drop it from the config, persist, then
`remove_dir_all` its directory. -/
def remove_lang_op (st : ProjState) (lang : Language) :
    Except RemoveLangaugeError Unit × ProjState :=
  match st.config.get_tgt_dir_path_by_lang lang with
  | none => (.error .TargetLanguageNotInProject, st)
  | some tgt_lang_path =>
    if ¬ (existsAbs st.path_to_root st.disk tgt_lang_path
        && isDirAbs st.path_to_root st.disk tgt_lang_path) then
      (.error .LangDirDoesNotExist, st)
    else
      let cfg2 := st.config.remove_lang lang
      let disk2 :=
        match pathRel st.path_to_root tgt_lang_path with
        | some rel => removeRel st.disk rel
        | none => st.disk
      (.ok (), { st with config := cfg2, manifest := some cfg2, disk := disk2 })

/-- Rust `Project::make_translatable_file` (lines 245-254): canonicalize the path
(failing with `NoFile` when it is not on disk), set the matching file's flag
in the source model via `find_file_and_apply`, and persist; when no file
matches, the config is unchanged and nothing is written. -/
def make_translatable_file (st : ProjState) (path : Path) :
    Except AddTranslatableFileError Unit × ProjState :=
  if ¬ existsAbs st.path_to_root st.disk path then (.error .NoFile, st)
  else
    match st.config.src_dir with
    | none => (.error .NoSourceLang, st)
    | some ld =>
      match find_file_and_apply (fun f => { f with translatable := true })
          ld.dir path with
      | (d2, true) =>
        let cfg2 := { st.config with src_dir := some (LangDir.mk d2 ld.language) }
        (.ok (), { st with config := cfg2, manifest := some cfg2 })
      | (_, false) => (.error .NoFile, st)

/-- Rust `Project::make_untranslatable_file` (lines 257-266), the same with the
flag cleared. -/
def make_untranslatable_file (st : ProjState) (path : Path) :
    Except AddTranslatableFileError Unit × ProjState :=
  if ¬ existsAbs st.path_to_root st.disk path then (.error .NoFile, st)
  else
    match st.config.src_dir with
    | none => (.error .NoSourceLang, st)
    | some ld =>
      match find_file_and_apply (fun f => { f with translatable := false })
          ld.dir path with
      | (d2, true) =>
        let cfg2 := { st.config with src_dir := some (LangDir.mk d2 ld.language) }
        (.ok (), { st with config := cfg2, manifest := some cfg2 })
      | (_, false) => (.error .NoFile, st)

/-- The `for d_name in lang_dirs_names` loop of `sync_files`: for each target
directory name, prune the on-disk target against the source model
(`remove_files_not_in_source_dir`, whose failure is `RemoveUntrackedError` —
a missing or unreadable target directory fails its `read_dir` the same way),
then distribute the untranslatable files (`copy_untranslatable_files`, whose
failure is `CopyError`).  An error stops the loop; disk changes made so far
remain. -/
def syncLoop (root src_path : Path) (src_dir_name : String)
    (src_model : Directory) :
    List String → List DiskEntry → List DiskEntry × Option SyncFilesError
  | [], disk => (disk, none)
  | d_name :: rest, disk =>
    match lookupEntry disk [d_name] with
    | some (.dir _ entries) =>
      match remove_files_not_in_source_dir src_path (root ++ [d_name])
          src_model entries with
      | (entries2, true) =>
        let disk1 := setDirEntriesRel disk [d_name] entries2
        match copy_untranslatable_files root src_dir_name d_name src_model disk1 with
        | (disk2, true) => syncLoop root src_path src_dir_name src_model rest disk2
        | (disk2, false) => (disk2, some .CopyError)
      | (entries2, false) =>
        (setDirEntriesRel disk [d_name] entries2, some .RemoveUntrackedError)
    | _ => (disk, some .RemoveUntrackedError)

/-- Rust `Project::sync_files` (lines 198-242): require a source language; rescan
and merge the source model (`update_project_structure`) BEFORE the check that
any target exists; fail with `NoTransLangs` when the (already updated) config
has no targets; otherwise prune and distribute every target on disk, rescan
every target model (`analyze_lang_dirs`), and persist.  The `panic!`
("impossible case") branch is unreachable because the merge step always leaves
a source in place. -/
def sync_files (st : ProjState) :
    PanicOr (Except SyncFilesError Unit × ProjState) :=
  match st.config.getSrcLang with
  | none => .normal (.error .NoSourceLang, st)
  | some _ =>
    match update_source_dir_config st.path_to_root st.disk st.config with
    | .error _ => .normal (.error .UpdateStructureError, st)
    | .ok cfg2 =>
      let st1 : ProjState := { st with config := cfg2 }
      if cfg2.lang_dirs.isEmpty then .normal (.error .NoTransLangs, st1)
      else
        match cfg2.src_dir with
        | none => .panicked
        | some lang_src_dir =>
          let lang_dirs_names := cfg2.lang_dirs.map (fun ld => ld.dir.name)
          let src_dir := lang_src_dir.dir
          match syncLoop st1.path_to_root src_dir.path src_dir.name src_dir
              lang_dirs_names st1.disk with
          | (disk2, some e) => .normal (.error e, { st1 with disk := disk2 })
          | (disk2, none) =>
            match analyze_lang_dirs st1.path_to_root disk2 cfg2.lang_dirs with
            | (lds, true) =>
              let cfg3 := { cfg2 with lang_dirs := lds }
              .normal (.ok (),
                { st1 with disk := disk2, config := cfg3, manifest := some cfg3 })
            | (lds, false) =>
              let cfg3 := { cfg2 with lang_dirs := lds }
              .normal (.error .BuildingConfigError,
                { st1 with disk := disk2, config := cfg3 })

/-! ## The translation pipeline (`src/translator/mod.rs`) -/

/-- Rust `translate_contents` (lines 49-60): divide the text into chunks of
`LINES_PER_CHUNK = 100` lines and concatenate the per-chunk results; the whole
per-chunk round trip of `translate_chunk` (prompt templating, the network call
to the generation service, extraction of the delimited output) is the opaque
collaborator `tf`. -/
def translate_contents (tf : List Char → Language → List Char)
    (contents : List Char) (tgt_lang : Language) : List Char :=
  ((divide_into_chunks contents 100).map (fun ch => tf ch tgt_lang)).flatten

/-- Rust `translate_file_helper` (`src/project/mod.rs` lines 324-343): check the
path exists and is a file; `unwrap()` the source path and the target path —
the latter PANICS when `lang` has no configured target directory; compute the
relative path (`strip_prefix`, failing as `FileNotExist`); then
`translate_file_to_file` reads the file (a read failure panics, since
`read_string_file` uses `expect`), translates, and writes the result at the
matching relative path under the target root (an open failure is `IoError`).
The fixed 8-second sleep is not modelled. -/
def translate_file_helper (tf : List Char → Language → List Char)
    (root : Path) (disk : List DiskEntry) (path : Path) (conf : ProjectConfig)
    (lang : Language) :
    PanicOr (Except TranslateFileError Unit × List DiskEntry) :=
  if ¬ (existsAbs root disk path && isFileAbs root disk path) then
    .normal (.error .FileNotExist, disk)
  else
    match conf.get_src_dir_path with
    | none => .panicked
    | some src_dir_path =>
      match conf.get_tgt_dir_path_by_lang lang with
      | none => .panicked
      | some tgt_lang_path =>
        match pathRel src_dir_path path with
        | none => .normal (.error .FileNotExist, disk)
        | some relative_path =>
          let new_path := tgt_lang_path ++ relative_path
          match readFileAbs root disk path with
          | none => .panicked
          | some contents =>
            let translated := translate_contents tf contents lang
            match pathRel root new_path with
            | none => .normal (.error .IoError, disk)
            | some nrel =>
              match setFileRel disk nrel translated with
              | some disk2 => .normal (.ok (), disk2)
              | none => .normal (.error .IoError, disk)

/-- The `for file in &trans_files` loop of `translate_all`. -/
def translateAllLoop (tf : List Char → Language → List Char) (root : Path)
    (conf : ProjectConfig) (lang : Language) :
    List Path → List DiskEntry →
      PanicOr (Except TranslateFileError Unit × List DiskEntry)
  | [], disk => .normal (.ok (), disk)
  | p :: rest, disk =>
    match translate_file_helper tf root disk p conf lang with
    | .panicked => .panicked
    | .normal (.error e, disk2) => .normal (.error e, disk2)
    | .normal (.ok _, disk2) => translateAllLoop tf root conf lang rest disk2

/-- Rust `Project::translate_all` (lines 307-315): collect the translatable files
and run `translate_file_helper` on each; note that unlike `translate_file`,
it never checks that `lang` is a configured target. -/
def translate_all (tf : List Char → Language → List Char) (st : ProjState)
    (lang : Language) :
    PanicOr (Except TranslateFileError Unit × List DiskEntry) :=
  match st.config.get_translatable_files with
  | .error _ => .normal (.error .TranslatableFilesError, st.disk)
  | .ok trans_files =>
    translateAllLoop tf st.path_to_root st.config lang trans_files st.disk

/-! ## Claims about the lifecycle operations -/

/-- C9: when a target with language `lang` is already configured and its
directory `<project-name><suffix>` is on disk, a second `add_lang(lang)`
returns an error (`LangDirExists`, from the up-front existence check, which
runs before anything else) and the state — config, disk, and manifest — is
exactly unchanged: no directory is created or modified and the manifest is not
rewritten. -/
theorem add_lang_duplicate_no_mutation (st : ProjState) (lang : Language)
    (_h1 : lang ∈ st.config.lang_dirs.map LangDir.language)
    (h2 : existsAbs st.path_to_root st.disk
      (st.path_to_root ++ [st.config.name ++ lang.get_dir_suffix]) = true) :
    add_lang st lang = (.error .LangDirExists, st) := by
  simp only [add_lang]
  simp [h2]

theorem add_lang_duplicate_no_mutation_witness :
    (Language.French ∈
      (ProjState.mk ["r"]
        (ProjectConfig.mk "p"
          [LangDir.mk (Directory.mk "p_fr" ["r", "p_fr"] [] []) .French]
          (some (LangDir.mk (Directory.mk "src" ["r", "src"] [] []) .English)))
        [.dir "src" [], .dir "p_fr" []]
        none).config.lang_dirs.map LangDir.language)
    ∧ add_lang
        (ProjState.mk ["r"]
          (ProjectConfig.mk "p"
            [LangDir.mk (Directory.mk "p_fr" ["r", "p_fr"] [] []) .French]
            (some (LangDir.mk (Directory.mk "src" ["r", "src"] [] []) .English)))
          [.dir "src" [], .dir "p_fr" []]
          none) .French =
      (.error .LangDirExists,
        (ProjState.mk ["r"]
          (ProjectConfig.mk "p"
            [LangDir.mk (Directory.mk "p_fr" ["r", "p_fr"] [] []) .French]
            (some (LangDir.mk (Directory.mk "src" ["r", "src"] [] []) .English)))
          [.dir "src" [], .dir "p_fr" []]
          none)) := by
  refine ⟨by decide, add_lang_duplicate_no_mutation _ .French (by decide) (by decide)⟩

/-- C10: when the named directory exists and is a directory and the language
is unused, but the recursive scan of the directory fails with an I/O error,
`set_source_dir` still returns `Ok(())` — the scan error (and the
manifest-write result) is discarded by `let _ = ...` — and the config,
in particular its source directory, is exactly as it was (unset if it was
unset); only the manifest is rewritten, with that unchanged config. -/
theorem set_source_dir_discards_scan_error (st : ProjState) (dir_name : String)
    (lang : Language)
    (hex : existsAbs st.path_to_root st.disk (st.path_to_root ++ [dir_name]) = true)
    (hdir : isDirAbs st.path_to_root st.disk (st.path_to_root ++ [dir_name]) = true)
    (hsrc : ∀ ld, st.config.src_dir = some ld → ld.language ≠ lang)
    (htgt : lang ∉ st.config.lang_dirs.map LangDir.language)
    (hscan : buildTreeAbs st.path_to_root st.disk (st.path_to_root ++ [dir_name]) =
      .error ()) :
    set_source_dir st dir_name lang =
      (.ok (), { st with manifest := some st.config }) := by
  have h3 : (match st.config.getSrcLang with
             | some src_lang => src_lang == lang
             | none => false) = false := by
    cases hs : st.config.src_dir with
    | none => simp [ProjectConfig.getSrcLang, hs]
    | some ld =>
      have hg : st.config.getSrcLang = some ld.language := by
        simp [ProjectConfig.getSrcLang, hs]
      rw [hg]
      show (ld.language == lang) = false
      simp only [beq_eq_false_iff_ne, ne_eq]
      exact hsrc ld hs
  have h4 : (st.config.lang_dirs.map LangDir.language).contains lang = false := by
    cases hcc : (st.config.lang_dirs.map LangDir.language).contains lang with
    | false => rfl
    | true => exact absurd (by simpa using hcc) htgt
  simp only [set_source_dir]
  simp [hex, hdir, h3, h4, hscan]
  intro x hx he
  exact htgt (he ▸ List.mem_map_of_mem LangDir.language hx)

theorem set_source_dir_discards_scan_error_witness :
    existsAbs ["r"] [DiskEntry.unreadable "src"] (["r"] ++ ["src"]) = true
    ∧ isDirAbs ["r"] [DiskEntry.unreadable "src"] (["r"] ++ ["src"]) = true
    ∧ buildTreeAbs ["r"] [DiskEntry.unreadable "src"] (["r"] ++ ["src"]) = .error ()
    ∧ set_source_dir
        (ProjState.mk ["r"] (ProjectConfig.new "p")
          [DiskEntry.unreadable "src"] none) "src" .English =
      (.ok (),
        { ProjState.mk ["r"] (ProjectConfig.new "p") [DiskEntry.unreadable "src"] none
          with manifest := some (ProjectConfig.new "p") }) := by
  refine ⟨by decide, by decide, by rfl, ?_⟩
  exact set_source_dir_discards_scan_error
    (ProjState.mk ["r"] (ProjectConfig.new "p") [DiskEntry.unreadable "src"] none)
    "src" .English (by decide) (by decide)
    (by intro ld hld; cases hld) (by decide) (by rfl)

unseal buildTreeAux compare_and_submit_dir_structs in
/-- C2 (refuted as stated): on a state whose source is set (its stored model
has no files), whose target list is empty, and whose on-disk source directory
now contains a file `f`, `sync_files` returns the no-targets error — but the
in-memory config is NOT as it was: the call rescans and merges the source
model before checking for targets, so the returned state's source model has
acquired the file `f`.  (Disk and manifest are indeed unchanged.) -/
theorem sync_files_no_targets_mutates_model :
    sync_files
      (ProjState.mk ["r"]
        (ProjectConfig.mk "p" []
          (some (LangDir.mk (Directory.mk "src" ["r", "src"] [] []) .English)))
        [.dir "src" [.file "f" ['x']]]
        (some (ProjectConfig.mk "p" []
          (some (LangDir.mk (Directory.mk "src" ["r", "src"] [] []) .English))))) =
      .normal (.error .NoTransLangs,
        ProjState.mk ["r"]
          (ProjectConfig.mk "p" []
            (some (LangDir.mk
              (Directory.mk "src" ["r", "src"] []
                [⟨"f", ["r", "src", "f"], false⟩]) .English)))
          [.dir "src" [.file "f" ['x']]]
          (some (ProjectConfig.mk "p" []
            (some (LangDir.mk (Directory.mk "src" ["r", "src"] [] []) .English)))))
    ∧ (some (LangDir.mk (Directory.mk "src" ["r", "src"] [] []) .English) ≠
        some (LangDir.mk
          (Directory.mk "src" ["r", "src"] [] [⟨"f", ["r", "src", "f"], false⟩])
          .English)) := by
  constructor
  · rfl
  · simp

/-- C2 (amended): for every state whose source directory is set and whose
target list is empty, and on which the rescan of the source directory
succeeds, `sync_files` returns the no-targets error while performing no I/O
side effect — root, disk and manifest come back exactly as they were — but
the in-memory config does change first: its source model is replaced by the
merge of the old model with the fresh scan (so it is generally NOT "exactly
as it was", as the counterexample shows). -/
theorem sync_files_no_targets_amended (st : ProjState) (ld : LangDir)
    (hsrc : st.config.src_dir = some ld)
    (hempty : st.config.lang_dirs = [])
    (newd : Directory)
    (hscan : buildTreeAbs st.path_to_root st.disk ld.dir.path = .ok newd) :
    sync_files st = .normal (.error .NoTransLangs,
      ProjState.mk st.path_to_root
        (ProjectConfig.mk st.config.name st.config.lang_dirs
          (some (LangDir.mk (compare_and_submit_dir_structs ld.dir newd)
            ld.language)))
        st.disk st.manifest) := by
  obtain ⟨root, cfg, dsk, man⟩ := st
  obtain ⟨nm, lds, sd⟩ := cfg
  simp only at hsrc hempty hscan
  subst hempty
  subst hsrc
  have hlang : (ProjectConfig.mk nm [] (some ld)).getSrcLang = some ld.language := by
    simp [ProjectConfig.getSrcLang]
  have hupd : update_source_dir_config root dsk (ProjectConfig.mk nm [] (some ld)) =
      .ok (ProjectConfig.mk nm []
        (some (LangDir.mk (compare_and_submit_dir_structs ld.dir newd)
          ld.language))) := by
    simp only [update_source_dir_config, hscan]
  simp only [sync_files, hlang, hupd]
  simp

unseal buildTreeAux compare_and_submit_dir_structs in
theorem sync_files_no_targets_amended_witness :
    (ProjState.mk ["r"]
        (ProjectConfig.mk "p" []
          (some (LangDir.mk (Directory.mk "src" ["r", "src"] [] []) .English)))
        [.dir "src" [.file "f" ['x']]] none).config.src_dir =
      some (LangDir.mk (Directory.mk "src" ["r", "src"] [] []) .English)
    ∧ sync_files
        (ProjState.mk ["r"]
          (ProjectConfig.mk "p" []
            (some (LangDir.mk (Directory.mk "src" ["r", "src"] [] []) .English)))
          [.dir "src" [.file "f" ['x']]] none) =
      .normal (.error .NoTransLangs,
        ProjState.mk ["r"]
          (ProjectConfig.mk "p" []
            (some (LangDir.mk
              (compare_and_submit_dir_structs
                (Directory.mk "src" ["r", "src"] [] [])
                (Directory.mk "src" ["r", "src"] []
                  [⟨"f", ["r", "src", "f"], false⟩]))
              Language.English)))
          [.dir "src" [.file "f" ['x']]] none) := by
  refine ⟨rfl, ?_⟩
  exact sync_files_no_targets_amended
    (ProjState.mk ["r"]
      (ProjectConfig.mk "p" []
        (some (LangDir.mk (Directory.mk "src" ["r", "src"] [] []) .English)))
      [.dir "src" [.file "f" ['x']]] none)
    (LangDir.mk (Directory.mk "src" ["r", "src"] [] []) .English) rfl rfl
    (Directory.mk "src" ["r", "src"] [] [⟨"f", ["r", "src", "f"], false⟩])
    (by rfl)

unseal collectTranslatableBfs in
/-- C4 (code bug): on a state with a source set (English), one translatable
file present on disk, and French as the only configured target, calling
`translate_all(German)` — a language that is NOT a configured target — does
not fail with the no-target error the spec's operation table prescribes: it
PANICS, because `translate_all` never checks `lang` against the configured
targets (unlike `translate_file`) and `translate_file_helper` calls
`.unwrap()` on `get_tgt_dir_path_by_lang`, which is `None`.  Nothing is
delegated to the translation collaborator. -/
theorem translate_all_missing_target_panics :
    (ProjectConfig.mk "p"
        [LangDir.mk (Directory.mk "p_fr" ["r", "p_fr"] [] []) .French]
        (some (LangDir.mk
          (Directory.mk "src" ["r", "src"] [] [⟨"a", ["r", "src", "a"], true⟩])
          .English))).get_translatable_files = .ok [["r", "src", "a"]]
    ∧ (ProjectConfig.mk "p"
        [LangDir.mk (Directory.mk "p_fr" ["r", "p_fr"] [] []) .French]
        (some (LangDir.mk
          (Directory.mk "src" ["r", "src"] [] [⟨"a", ["r", "src", "a"], true⟩])
          .English))).lang_dirs.map LangDir.language = [.French]
    ∧ translate_all (fun ch _ => ch)
        (ProjState.mk ["r"]
          (ProjectConfig.mk "p"
            [LangDir.mk (Directory.mk "p_fr" ["r", "p_fr"] [] []) .French]
            (some (LangDir.mk
              (Directory.mk "src" ["r", "src"] []
                [⟨"a", ["r", "src", "a"], true⟩])
              .English)))
          [.dir "src" [.file "a" ['h']], .dir "p_fr" []]
          none) .German = .panicked := by
  refine ⟨rfl, rfl, rfl⟩

/-! ## The C6 invariant: source language distinct from targets, targets
pairwise distinct -/

/-- The language invariant of a `ProjectConfig`: the source language (when a
source is set) is not among the target languages, and the target languages
are pairwise distinct. -/
def LangsOk (c : ProjectConfig) : Prop :=
  (∀ ld, c.src_dir = some ld → ld.language ∉ c.lang_dirs.map LangDir.language)
  ∧ (c.lang_dirs.map LangDir.language).Nodup

theorem LangsOk_congr {c c2 : ProjectConfig}
    (hsrc : c2.src_dir = c.src_dir)
    (hmap : c2.lang_dirs.map LangDir.language = c.lang_dirs.map LangDir.language)
    (h : LangsOk c) : LangsOk c2 := by
  constructor
  · intro ld hld
    rw [hmap]
    exact h.1 ld (by rw [← hsrc]; exact hld)
  · rw [hmap]
    exact h.2

theorem LangsOk_set_source_dir (st : ProjState) (dn : String) (l : Language)
    (h : LangsOk st.config) : LangsOk (set_source_dir st dn l).2.config := by
  rw [set_source_dir]
  split
  · exact h
  split
  · exact h
  split
  · exact h
  split
  · exact h
  rename_i h1 h2 h3 h4
  have hnotin : l ∉ st.config.lang_dirs.map LangDir.language := by
    intro hmem
    exact h4 (by simpa using hmem)
  split
  · rename_i d hscan
    constructor
    · intro ld' hld'
      have h6 : some (LangDir.mk d l) = some ld' := hld'
      injection h6 with h7
      rw [← h7]
      exact hnotin
    · exact h.2
  · exact h

theorem LangsOk_add_lang (st : ProjState) (l : Language)
    (h : LangsOk st.config) : LangsOk (add_lang st l).2.config := by
  rw [add_lang]
  split
  · exact h
  split
  · exact h
  rename_i h1 src_lang hsrc_lang
  split
  · exact h
  split
  · exact h
  rename_i h3 h4
  have hne : src_lang ≠ l := by
    intro he
    exact h3 (by simpa using he)
  have hnotin : l ∉ st.config.lang_dirs.map LangDir.language := by
    intro hmem
    exact h4 (by simpa using hmem)
  split
  · exact h
  split
  · exact h
  split
  · exact h
  rename_i nrel hnrel disk2 hdisk2 d hscan
  constructor
  · intro ld' hld'
    have hld2 : st.config.src_dir = some ld' := hld'
    have hlang : ld'.language = src_lang := by
      have h5 := hsrc_lang
      rw [ProjectConfig.getSrcLang, hld2] at h5
      have h6 : some ld'.language = some src_lang := by simpa using h5
      injection h6
    simp only [List.map_append, List.map_cons, List.map_nil]
    intro hmem
    rcases List.mem_append.mp hmem with hm1 | hm2
    · exact h.1 ld' hld2 hm1
    · have h7 : ld'.language = l := by simpa using hm2
      rw [hlang] at h7
      exact hne h7
  · simp only [List.map_append, List.map_cons, List.map_nil]
    rw [List.nodup_append]
    exact ⟨h.2, List.nodup_singleton l,
      by intro a ha hb; simp at hb; subst hb; exact hnotin ha⟩

theorem langs_remove_lang (c : ProjectConfig) (lang : Language) :
    (c.remove_lang lang).src_dir = c.src_dir ∧
    ((c.remove_lang lang).lang_dirs.map LangDir.language).Sublist
      (c.lang_dirs.map LangDir.language) := by
  rw [ProjectConfig.remove_lang]
  split
  · exact ⟨rfl, (List.eraseIdx_sublist _ _).map _⟩
  · exact ⟨rfl, List.Sublist.refl _⟩

theorem LangsOk_remove_lang_op (st : ProjState) (l : Language)
    (h : LangsOk st.config) : LangsOk (remove_lang_op st l).2.config := by
  rw [remove_lang_op]
  split
  · exact h
  split
  · exact h
  obtain ⟨hsrc2, hsub⟩ := langs_remove_lang st.config l
  constructor
  · intro ld hld hmem
    exact h.1 ld (by rw [← hsrc2]; exact hld) (hsub.subset hmem)
  · exact h.2.sublist hsub

theorem LangsOk_make_translatable (st : ProjState) (p : Path)
    (h : LangsOk st.config) : LangsOk (make_translatable_file st p).2.config := by
  rw [make_translatable_file]
  split
  · exact h
  split
  · exact h
  rename_i ld hld
  split
  · rename_i d2 heqf
    constructor
    · intro ld' hld'
      have h6 : some (LangDir.mk d2 ld.language) = some ld' := hld'
      injection h6 with h7
      rw [← h7]
      exact h.1 ld hld
    · exact h.2
  · exact h

theorem LangsOk_make_untranslatable (st : ProjState) (p : Path)
    (h : LangsOk st.config) : LangsOk (make_untranslatable_file st p).2.config := by
  rw [make_untranslatable_file]
  split
  · exact h
  split
  · exact h
  rename_i ld hld
  split
  · rename_i d2 heqf
    constructor
    · intro ld' hld'
      have h6 : some (LangDir.mk d2 ld.language) = some ld' := hld'
      injection h6 with h7
      rw [← h7]
      exact h.1 ld hld
    · exact h.2
  · exact h

theorem update_source_dir_config_langs (root : Path) (disk : List DiskEntry)
    (c cfg2 : ProjectConfig)
    (h : update_source_dir_config root disk c = .ok cfg2) :
    cfg2.lang_dirs = c.lang_dirs ∧
      ∃ ld newd, c.src_dir = some ld ∧
        cfg2.src_dir = some (LangDir.mk
          (compare_and_submit_dir_structs ld.dir newd) ld.language) := by
  rw [update_source_dir_config] at h
  split at h
  · cases h
  · rename_i ld hld
    split at h
    · cases h
    · rename_i newd hnew
      injection h with h2
      subst h2
      exact ⟨rfl, ld, newd, hld, rfl⟩

theorem analyze_lang_dirs_langs (root : Path) (disk : List DiskEntry)
    (l : List LangDir) :
    (analyze_lang_dirs root disk l).1.map LangDir.language =
      l.map LangDir.language := by
  induction l with
  | nil => rfl
  | cons ld rest ih =>
    rw [analyze_lang_dirs]
    split
    · simpa using ih
    · simp

theorem LangsOk_sync_files_aux (st : ProjState) (h : LangsOk st.config)
    (r : Except SyncFilesError Unit) (st2 : ProjState)
    (hs : sync_files st = .normal (r, st2)) : LangsOk st2.config := by
  rw [sync_files] at hs
  split at hs
  · injection hs with hs2
    injection hs2 with hr hst
    subst hst
    exact h
  split at hs
  · injection hs with hs2
    injection hs2 with hr hst
    subst hst
    exact h
  rename_i cfg2 hupd
  obtain ⟨hld_eq, ld, newd, hsrc_old, hsrc_new⟩ :=
    update_source_dir_config_langs _ _ _ _ hupd
  have hc2 : LangsOk cfg2 := by
    constructor
    · intro ld' hld'
      rw [hsrc_new] at hld'
      injection hld' with hld2
      rw [← hld2]
      rw [hld_eq]
      exact h.1 ld hsrc_old
    · rw [hld_eq]
      exact h.2
  split at hs
  · injection hs with hs2
    injection hs2 with hr hst
    subst hst
    exact hc2
  split at hs
  · cases hs
  rename_i lang_src_dir hsome
  dsimp only at hs
  split at hs
  · injection hs with hs2
    injection hs2 with hr hst
    subst hst
    exact hc2
  rename_i disk2 hloop
  split at hs
  · rename_i lds hana
    injection hs with hs2
    injection hs2 with hr hst
    subst hst
    refine @LangsOk_congr cfg2 _ rfl ?_ hc2
    show lds.map LangDir.language = cfg2.lang_dirs.map LangDir.language
    have h2 := analyze_lang_dirs_langs st.path_to_root disk2 cfg2.lang_dirs
    have h3 : lds = (analyze_lang_dirs st.path_to_root disk2 cfg2.lang_dirs).1 := by
      rw [hana]
    rw [h3]
    exact h2
  · rename_i lds hana
    injection hs with hs2
    injection hs2 with hr hst
    subst hst
    refine @LangsOk_congr cfg2 _ rfl ?_ hc2
    show lds.map LangDir.language = cfg2.lang_dirs.map LangDir.language
    have h2 := analyze_lang_dirs_langs st.path_to_root disk2 cfg2.lang_dirs
    have h3 : lds = (analyze_lang_dirs st.path_to_root disk2 cfg2.lang_dirs).1 := by
      rw [hana]
    rw [h3]
    exact h2

theorem LangsOk_sync_files (st : ProjState) (h : LangsOk st.config) :
    LangsOk (match sync_files st with
             | .normal pr => pr.2
             | .panicked => st).config := by
  cases hs : sync_files st with
  | panicked => exact h
  | normal pr =>
    obtain ⟨r, st2⟩ := pr
    exact LangsOk_sync_files_aux st h r st2 hs

/-- The public mutating operations of the lifecycle manager, with their
arguments. -/
inductive Op where
  | setSourceDir (dir_name : String) (lang : Language)
  | addLang (lang : Language)
  | removeLang (lang : Language)
  | syncFiles
  | markTranslatable (p : Path)
  | markUntranslatable (p : Path)

/-- The project state after running one operation (a panicking run produces
no next state, so for reachability it is modelled as leaving the state
unchanged). -/
def applyOp (op : Op) (st : ProjState) : ProjState :=
  match op with
  | .setSourceDir dn l => (set_source_dir st dn l).2
  | .addLang l => (add_lang st l).2
  | .removeLang l => (remove_lang_op st l).2
  | .syncFiles =>
    match sync_files st with
    | .normal pr => pr.2
    | .panicked => st
  | .markTranslatable p => (make_translatable_file st p).2
  | .markUntranslatable p => (make_untranslatable_file st p).2

/-- Project configs reachable from `init` (an empty config) through the
public operations, with the disk and manifest free to be anything at each
step — external filesystem changes between operations are allowed. -/
inductive ReachableConfig : ProjectConfig → Prop where
  | init (name : String) : ReachableConfig (ProjectConfig.new name)
  | step (c : ProjectConfig) (op : Op) (root : Path) (disk : List DiskEntry)
      (manifest : Option ProjectConfig) :
      ReachableConfig c →
      ReachableConfig (applyOp op (ProjState.mk root c disk manifest)).config

theorem LangsOk_applyOp (op : Op) (st : ProjState) (h : LangsOk st.config) :
    LangsOk (applyOp op st).config := by
  cases op with
  | setSourceDir dn l => exact LangsOk_set_source_dir st dn l h
  | addLang l => exact LangsOk_add_lang st l h
  | removeLang l => exact LangsOk_remove_lang_op st l h
  | syncFiles => exact LangsOk_sync_files st h
  | markTranslatable p => exact LangsOk_make_translatable st p h
  | markUntranslatable p => exact LangsOk_make_untranslatable st p h

/-- C6: in every project config reachable from `init` through the public
operations (`set_source_dir`, `add_lang`, `remove_lang`, `sync_files`,
`make_translatable_file`, `make_untranslatable_file`), with the disk free to
change arbitrarily between operations, the language of the source `LangDir`
is distinct from every target language, and the target languages are pairwise
distinct — each language appears at most once in `lang_dirs`. -/
theorem reachable_config_langs_ok (c : ProjectConfig) (h : ReachableConfig c) :
    LangsOk c := by
  induction h with
  | init name =>
    constructor
    · intro ld hld
      simp [ProjectConfig.new] at hld
    · simp [ProjectConfig.new]
  | step c op root disk manifest hr ih =>
    exact LangsOk_applyOp op (ProjState.mk root c disk manifest) ih

theorem reachable_config_langs_ok_witness : LangsOk (ProjectConfig.new "demo") :=
  reachable_config_langs_ok (ProjectConfig.new "demo") (ReachableConfig.init "demo")

end TransDir
